import Mathlib

/-!
Verification development for the clankers repository: a shallow embedding of
the content model, the tool-output parser, the provider message conversions
(Ollama, Gemini, Anthropic), the stream aggregator and the tool-orchestration
loop, together with theorems settling the specification claims.

Machine integers of the source (u64 token counters) are modelled as Nat;
serde JSON values are modelled by the inductive `Json` below, with the JSON
parser of the external serde library kept abstract (theorems quantify over a
parse function or take the parsed value as an argument).
-/

namespace Clankers

/-- Model of a serde JSON value (`serde_json::Value`). Numbers are modelled as
integers; no claim depends on float payloads. -/
inductive Json where
  | null : Json
  | bool (b : Bool) : Json
  | num (n : Int) : Json
  | str (s : String) : Json
  | arr (xs : List Json) : Json
  | obj (kvs : List (String × Json)) : Json
deriving Repr

/-- Lookup of a top-level object key (`serde_json::Value::get`): the first
binding with that key when the value is an object, `none` otherwise. -/
def Json.get : Json → String → Option Json
  | .obj kvs, k => (kvs.find? (fun kv => kv.1 = k)).map (·.2)
  | _, _ => none

/-- Model of `Value::as_str`. -/
def Json.asStr : Json → Option String
  | .str s => some s
  | _ => none

/-- Model of `Value::as_array`. -/
def Json.asArr : Json → Option (List Json)
  | .arr xs => some xs
  | _ => none

/-- Escaping of one character in a JSON string literal, as serde prints it
(quote and backslash escaped; other characters kept). -/
def escapeChar (c : Char) : String :=
  if c = '"' then "\\\"" else if c = '\\' then "\\\\" else String.singleton c

/-- Escaping of a JSON string body. -/
def escapeString (s : String) : String :=
  String.join (s.toList.map escapeChar)

mutual

/-- Compact rendering of a JSON value, modelling `serde_json::Value::to_string`. -/
def renderJson : Json → String
  | .null => "null"
  | .bool true => "true"
  | .bool false => "false"
  | .num n => toString n
  | .str s => "\"" ++ escapeString s ++ "\""
  | .arr xs => "[" ++ renderJsonList xs ++ "]"
  | .obj kvs => "\x7b" ++ renderJsonObj kvs ++ "\x7d"

/-- Comma-separated rendering of a JSON array body. -/
def renderJsonList : List Json → String
  | [] => ""
  | [x] => renderJson x
  | x :: xs => renderJson x ++ "," ++ renderJsonList xs

/-- Comma-separated rendering of a JSON object body. -/
def renderJsonObj : List (String × Json) → String
  | [] => ""
  | [(k, v)] => "\"" ++ escapeString k ++ "\":" ++ renderJson v
  | (k, v) :: kvs => "\"" ++ escapeString k ++ "\":" ++ renderJson v ++ "," ++ renderJsonObj kvs

end

/-- Error raised by NonEmptySequence construction from zero elements, the
`EmptyCollection` case of the one-or-many error type. -/
inductive OneOrManyError where
  | emptyList : OneOrManyError
deriving Repr, DecidableEq

/-- Modelled from the spec: `NonEmptySequence<T>` (the `OneOrMany` type of the
repository, whose defining module is absent from the sources): an ordered
collection guaranteed to contain at least one element. -/
structure OneOrMany (α : Type) where
  first : α
  rest : List α
deriving Repr

/-- Construction from exactly one element. -/
def OneOrMany.one {α : Type} (a : α) : OneOrMany α := ⟨a, []⟩

/-- Construction from a list; the empty list fails with `EmptyCollection`. -/
def OneOrMany.many {α : Type} : List α → Except OneOrManyError (OneOrMany α)
  | [] => .error .emptyList
  | x :: xs => .ok ⟨x, xs⟩

/-- All elements, in order. -/
def OneOrMany.toList {α : Type} (s : OneOrMany α) : List α := s.first :: s.rest

/-- Map over every element. -/
def OneOrMany.map {α β : Type} (f : α → β) (s : OneOrMany α) : OneOrMany β :=
  ⟨f s.first, s.rest.map f⟩

/-- Fallible map over every element (the `try_map` combinator). -/
def OneOrMany.tryMap {α β ε : Type} (f : α → Except ε β) (s : OneOrMany α) :
    Except ε (OneOrMany β) := do
  let b ← f s.first
  let bs ← s.rest.mapM f
  pure ⟨b, bs⟩

instance {α : Type} [DecidableEq α] : DecidableEq (OneOrMany α) := fun a b => by
  cases a; cases b
  exact decidable_of_iff _ (Iff.of_eq (OneOrMany.mk.injEq _ _ _ _)).symm

/-- Image media types of the content model (crate::message::ImageMediaType). -/
inductive ImageMediaType where
  | jpeg | png | gif | webp | heic | heif | svg
deriving Repr, DecidableEq

/-- Model of `ImageMediaType::from_mime_type` (completion/conversions.rs). -/
def ImageMediaType.fromMimeType (mimeType : String) : Option ImageMediaType :=
  if mimeType = "image/jpeg" then some .jpeg
  else if mimeType = "image/png" then some .png
  else if mimeType = "image/gif" then some .gif
  else if mimeType = "image/webp" then some .webp
  else if mimeType = "image/heic" then some .heic
  else if mimeType = "image/heif" then some .heif
  else if mimeType = "image/svg+xml" then some .svg
  else none

/-- Document media types (crate::message::DocumentMediaType); only the
constructors the embedded conversions inspect are distinguished. -/
inductive DocumentMediaType where
  | pdf | txt | rtf | html | css | markdown | csv | xml | javascript | python
deriving Repr, DecidableEq

/-- Audio media types (crate::message::AudioMediaType). -/
inductive AudioMediaType where
  | wav | mp3 | aiff | aac | ogg | flac
deriving Repr, DecidableEq

/-- Image detail level (crate::message::ImageDetail). -/
inductive ImageDetail where
  | low | high | auto
deriving Repr, DecidableEq

/-- Source of a document or image body (crate::message::DocumentSourceKind). -/
inductive DocumentSourceKind where
  | base64 (data : String)
  | url (u : String)
  | strKind (data : String)
  | raw (bytes : List Nat)
  | unknown
deriving Repr

/-- Image content block (crate::message::Image). -/
structure Image where
  data : DocumentSourceKind
  mediaType : Option ImageMediaType
  detail : Option ImageDetail
  additionalParams : Option Json
deriving Repr

/-- Text content block (crate::message::Text). -/
structure Text where
  text : String
deriving Repr

/-- Content of one tool-result block (crate::message::ToolResultContent). -/
inductive ToolResultContent where
  | text (t : Text)
  | image (i : Image)
deriving Repr

/-- Model of `ToolResultContent::text`. -/
def ToolResultContent.mkText (s : String) : ToolResultContent := .text ⟨s⟩

/-!
Embedding of `ToolResultContent::from_tool_output`
(src/crates/core/src/completion/conversions.rs, lines 318-396). The serde
JSON parser is external to the repository; the embedding therefore takes the
parse outcome of the output string as a separate argument (`none` models a
parse failure).
-/

/-- Image entry built from a data string and a mime type, with URL sources
recognized by their leading scheme, as in the source. -/
def imageFromDataMime (data mimeType : String) : ToolResultContent :=
  let dataKind :=
    if data.startsWith "http://" || data.startsWith "https://" then
      DocumentSourceKind.url data
    else
      DocumentSourceKind.base64 data
  .image ⟨dataKind, ImageMediaType.fromMimeType mimeType, none, none⟩

/-- One step of the hybrid-parts loop: the entry contributed by one element
of the "parts" array (skipped unless it is an image with string data and
mimeType fields). -/
def partEntry (part : Json) : Option ToolResultContent :=
  let isImage := ((part.get "type").bind Json.asStr) = some "image"
  if !isImage then none
  else
    match (part.get "data").bind Json.asStr, (part.get "mimeType").bind Json.asStr with
    | some data, some mimeType => some (imageFromDataMime data mimeType)
    | _, _ => none

/-- Entries accumulated by the hybrid branch of `from_tool_output`: a text
entry for the rendered "response" value (when present) followed by the image
entries of the "parts" array. -/
def hybridResults (j : Json) : List ToolResultContent :=
  let responsePart :=
    match j.get "response" with
    | some r => [ToolResultContent.mkText (renderJson r)]
    | none => []
  let parts := ((j.get "parts").bind Json.asArr).getD []
  responsePart ++ parts.filterMap partEntry

/-- The top-level image branch of `from_tool_output`: a single image entry
when the parsed value has type "image" with string data and mimeType. -/
def topLevelImage (j : Json) : Option ToolResultContent :=
  let isImage := ((j.get "type").bind Json.asStr) = some "image"
  if isImage then
    match (j.get "data").bind Json.asStr, (j.get "mimeType").bind Json.asStr with
    | some data, some mimeType => some (imageFromDataMime data mimeType)
    | _, _ => none
  else none

/-- Embedding of `ToolResultContent::from_tool_output`. `parsed` is the serde
parse outcome of `outputStr`. -/
def fromToolOutput (parsed : Option Json) (outputStr : String) :
    OneOrMany ToolResultContent :=
  match parsed with
  | some j =>
    if (j.get "response").isSome || (j.get "parts").isSome then
      let results := hybridResults j
      if !results.isEmpty then
        match OneOrMany.many results with
        | .ok r => r
        | .error _ => OneOrMany.one (ToolResultContent.mkText outputStr)
      else
        match topLevelImage j with
        | some img => OneOrMany.one img
        | none => OneOrMany.one (ToolResultContent.mkText outputStr)
    else
      match topLevelImage j with
      | some img => OneOrMany.one img
      | none => OneOrMany.one (ToolResultContent.mkText outputStr)
  | none => OneOrMany.one (ToolResultContent.mkText outputStr)

/-!
Internal message model (crate::message). The defining module is absent from
the sources; the shapes below are pinned by the constructor helpers in
completion/conversions.rs, by the pattern matches of the provider adapters
under src, and by spec section 3.
-/

/-- Function name plus JSON arguments of a tool call (crate::message::ToolFunction). -/
structure ToolFunction where
  name : String
  arguments : Json
deriving Repr

/-- A model-requested tool invocation (crate::message::ToolCall): id, optional
provider call id, function, optional signature, optional extra params. -/
structure ToolCall where
  id : String
  callId : Option String
  function : ToolFunction
  signature : Option String
  additionalParams : Option Json
deriving Repr

/-- Model of `ToolCall::new`: only id and function set, the optional fields empty. -/
def ToolCall.new (id : String) (function : ToolFunction) : ToolCall :=
  ⟨id, none, function, none, none⟩

/-- Model of `ToolCall::with_call_id`. -/
def ToolCall.withCallId (tc : ToolCall) (callId : String) : ToolCall :=
  { tc with callId := some callId }

/-- Model of `ToolCall::with_signature`. -/
def ToolCall.withSignature (tc : ToolCall) (signature : Option String) : ToolCall :=
  { tc with signature := signature }

/-- Reasoning content block (crate::message::Reasoning), with fragments held
in a list, as in the struct literal of ollama/message.rs tests. -/
structure Reasoning where
  id : Option String
  reasoning : List String
  signature : Option String
deriving Repr, DecidableEq

/-- Model of `Reasoning::new`: one fragment, no id, no signature. -/
def Reasoning.new (r : String) : Reasoning := ⟨none, [r], none⟩

/-- Model of `Reasoning::with_signature`. -/
def Reasoning.withSignature (r : Reasoning) (signature : Option String) : Reasoning :=
  { r with signature := signature }

/-- Content block of an assistant turn (crate::message::AssistantContent). -/
inductive AssistantContent where
  | text (t : Text)
  | image (i : Image)
  | toolCall (tc : ToolCall)
  | reasoning (r : Reasoning)
deriving Repr

/-- Model of `AssistantContent::text`. -/
def AssistantContent.mkText (s : String) : AssistantContent := .text ⟨s⟩

/-- Model of `AssistantContent::tool_call`. -/
def AssistantContent.mkToolCall (id name : String) (arguments : Json) : AssistantContent :=
  .toolCall (ToolCall.new id ⟨name, arguments⟩)

/-- A tool result carried inside a user turn (crate::message::ToolResult). -/
structure ToolResult where
  id : String
  callId : Option String
  content : OneOrMany ToolResultContent
deriving Repr

/-- Audio content block (crate::message::Audio). -/
structure Audio where
  data : DocumentSourceKind
  mediaType : Option AudioMediaType
  additionalParams : Option Json
deriving Repr

/-- Document content block (crate::message::Document). -/
structure Document where
  data : DocumentSourceKind
  mediaType : Option DocumentMediaType
  additionalParams : Option Json
deriving Repr

/-- Content block of a user turn (crate::message::UserContent). -/
inductive UserContent where
  | text (t : Text)
  | image (i : Image)
  | audio (a : Audio)
  | document (d : Document)
  | video (data : DocumentSourceKind)
  | toolResult (tr : ToolResult)
deriving Repr

/-- Model of `UserContent::text`. -/
def UserContent.mkText (s : String) : UserContent := .text ⟨s⟩

/-- Model of `UserContent::tool_result`. -/
def UserContent.mkToolResult (id : String) (content : OneOrMany ToolResultContent) :
    UserContent :=
  .toolResult ⟨id, none, content⟩

/-- A conversation turn (crate::message::Message): a user turn or an assistant
turn with an optional response id, each owning a non-empty content sequence. -/
inductive Message where
  | user (content : OneOrMany UserContent)
  | assistant (id : Option String) (content : OneOrMany AssistantContent)
deriving Repr

/-- Token usage statistics (crate::completion::Usage), u64 counters as Nat. -/
structure Usage where
  inputTokens : Nat
  outputTokens : Nat
  totalTokens : Nat
  cachedInputTokens : Nat
deriving Repr, DecidableEq

/-- Completion-level error (crate::completion::CompletionError); only the
constructors reached by the embedded code are distinguished. -/
inductive CompletionError where
  | responseError (msg : String)
  | requestError (msg : String)
  | providerError (msg : String)
deriving Repr, DecidableEq

/-- Message conversion error (crate::message::MessageError). -/
inductive MessageError where
  | conversionError (msg : String)
deriving Repr, DecidableEq

/-- Provider-agnostic completion response (crate::completion::CompletionResponse),
parameterized by the raw provider payload. -/
structure CompletionResponseOf (R : Type) where
  choice : OneOrMany AssistantContent
  usage : Usage
  rawResponse : R
deriving Repr

/-!
Ollama provider embedding (src/crates/core/src/providers/ollama).
-/

/-- Ollama wire tool-call function (providers/ollama/message.rs `Function`). -/
structure OllamaFunction where
  name : String
  arguments : Json
deriving Repr

/-- Ollama wire tool call; the type tag is fixed to "function". -/
structure OllamaToolCall where
  function : OllamaFunction
deriving Repr

/-- Ollama wire chat message (providers/ollama/message.rs `Message`). -/
inductive OllamaMessage where
  | user (content : String) (images : Option (List String)) (name : Option String)
  | assistant (content : String) (thinking : Option String)
      (images : Option (List String)) (name : Option String)
      (toolCalls : List OllamaToolCall)
  | system (content : String) (images : Option (List String)) (name : Option String)
  | toolReply (name : String) (content : String)
deriving Repr

/-- Model of `Message::system(text)` for Ollama. -/
def OllamaMessage.mkSystem (text : String) : OllamaMessage := .system text none none

/-- Ollama non-streaming chat response (providers/ollama/completion.rs
`CompletionResponse`), duration and count fields as optional Nat. -/
structure OllamaCompletionResponse where
  model : String
  createdAt : String
  message : OllamaMessage
  done : Bool
  doneReason : Option String
  totalDuration : Option Nat
  loadDuration : Option Nat
  promptEvalCount : Option Nat
  promptEvalDuration : Option Nat
  evalCount : Option Nat
  evalDuration : Option Nat
deriving Repr

/-- Embedding of `TryFrom<CompletionResponse> for completion::CompletionResponse`
(providers/ollama/completion.rs, lines 38-105): an assistant message yields a
choice of the text content (when non-empty) followed by one tool-call entry
per wire tool call, with both id and name taken from the function name; any
other message role is a response error. The thinking text is carried only in
the rebuilt raw response. -/
def ollamaTryFrom (resp : OllamaCompletionResponse) :
    Except CompletionError (CompletionResponseOf OllamaCompletionResponse) :=
  match resp.message with
  | .assistant content thinking _ _ toolCalls =>
    let assistantContents : List AssistantContent :=
      (if content ≠ "" then [AssistantContent.mkText content] else [])
      ++ toolCalls.map (fun tc =>
          AssistantContent.mkToolCall tc.function.name tc.function.name tc.function.arguments)
    match OneOrMany.many assistantContents with
    | .error _ => .error (.responseError "No content provided")
    | .ok choice =>
      let promptTokens := resp.promptEvalCount.getD 0
      let completionTokens := resp.evalCount.getD 0
      let rawResponse : OllamaCompletionResponse :=
        { resp with
          message := .assistant content thinking none none toolCalls }
      .ok
        { choice := choice
          usage :=
            { inputTokens := promptTokens
              outputTokens := completionTokens
              totalTokens := promptTokens + completionTokens
              cachedInputTokens := 0 }
          rawResponse := rawResponse }
  | _ => .error (.responseError "Chat response does not include an assistant message")

/-!
Completion request assembly. The `CompletionRequest` type and its
`normalized_documents` helper live in the completion module, which is absent
from the sources; they are modelled from the spec. The per-provider assembly
code below them is embedded from the adapters under src.
-/

/-- Modelled from the spec: the provider-agnostic `CompletionRequest`
(completion module absent from the sources) as the adapters consume it:
optional preamble, ordered chat history whose last message is the live user
turn, attached documents, tool definitions and sampling parameters (the
latter omitted, as no embedded assembly claim depends on them). -/
structure CompletionRequest where
  preamble : Option String
  chatHistory : List Message
  documents : List String
deriving Repr

/-- Modelled from the spec: `normalized_documents` (completion module absent
from the sources) bundles the request documents, when any exist, into one
user message placed ahead of the history. -/
def CompletionRequest.normalizedDocuments (req : CompletionRequest) : Option Message :=
  match req.documents with
  | [] => none
  | d :: ds => some (.user ⟨UserContent.mkText d, ds.map UserContent.mkText⟩)

/-- Embedding of the message-order assembly of
`TryFrom<(&str, CompletionRequest)> for OllamaCompletionRequest`
(providers/ollama/completion.rs, lines 129-151), parameterized by the
per-message conversion `conv` (ollama/message.rs `TryFrom` into a message
list): the normalized documents, then the chat history, are converted and
flattened behind the optional system preamble. -/
def ollamaAssembleMessages (conv : Message → Except MessageError (List OllamaMessage))
    (req : CompletionRequest) : Except MessageError (List OllamaMessage) := do
  let partHistory : List Message :=
    (match req.normalizedDocuments with
     | some docs => [docs]
     | none => []) ++ req.chatHistory
  let preamblePart : List OllamaMessage :=
    match req.preamble with
    | some p => [OllamaMessage.mkSystem p]
    | none => []
  let converted ← partHistory.mapM conv
  pure (preamblePart ++ converted.flatten)

/-- Embedding of the contents assembly of `create_request_body`
(providers/gemini/completion.rs, lines 179-242), parameterized by the
per-message conversion into a Gemini content value: the outgoing contents are
the converted chat history only; the request documents are never consulted. -/
def geminiAssembleContents {γ : Type} (conv : Message → Except MessageError γ)
    (req : CompletionRequest) : Except MessageError (List γ) :=
  req.chatHistory.mapM conv

/-!
Anthropic provider embedding (src/crates/core/src/providers/anthropic/types.rs).
-/

/-- Anthropic cache control directive. -/
inductive CacheControl where
  | ephemeral
deriving Repr, DecidableEq

/-- Anthropic image source data, base64 or URL. -/
inductive ImageSourceData where
  | base64 (data : String)
  | url (u : String)
deriving Repr, DecidableEq

/-- Anthropic image format. -/
inductive ImageFormat where
  | jpeg | png | gif | webp
deriving Repr, DecidableEq

/-- Anthropic document format: only PDF exists. -/
inductive DocumentFormat where
  | pdf
deriving Repr, DecidableEq

/-- Anthropic source type tag. -/
inductive SourceType where
  | base64Tag | urlTag
deriving Repr, DecidableEq

/-- Anthropic image source block. -/
structure AnthImageSource where
  data : ImageSourceData
  mediaType : ImageFormat
  sourceType : SourceType
deriving Repr, DecidableEq

/-- Anthropic document source block. -/
structure AnthDocumentSource where
  data : String
  mediaType : DocumentFormat
  sourceType : SourceType
deriving Repr, DecidableEq

/-- Anthropic tool-result content block. -/
inductive AnthToolResultContent where
  | text (t : String)
  | image (source : AnthImageSource)
deriving Repr, DecidableEq

/-- Anthropic message content block (types.rs `Content`). -/
inductive AnthContent where
  | text (t : String) (cacheControl : Option CacheControl)
  | image (source : AnthImageSource) (cacheControl : Option CacheControl)
  | toolUse (id name : String) (input : Json)
  | toolResult (toolUseId : String) (content : OneOrMany AnthToolResultContent)
      (isError : Option Bool) (cacheControl : Option CacheControl)
  | document (source : AnthDocumentSource) (cacheControl : Option CacheControl)
  | thinking (t : String) (signature : Option String)
deriving Repr

/-- Anthropic message role. -/
inductive AnthRole where
  | user | assistant
deriving Repr, DecidableEq

/-- Anthropic wire message (types.rs `Message`). -/
structure AnthMessage where
  role : AnthRole
  content : OneOrMany AnthContent
deriving Repr

/-- Embedding of `TryFrom<message::ImageMediaType> for ImageFormat`. -/
def imageFormatOfMedia : ImageMediaType → Except MessageError ImageFormat
  | .jpeg => .ok .jpeg
  | .png => .ok .png
  | .gif => .ok .gif
  | .webp => .ok .webp
  | _ => .error (.conversionError "Unsupported image media type")

/-- Embedding of `From<ImageFormat> for message::ImageMediaType`. -/
def mediaOfImageFormat : ImageFormat → ImageMediaType
  | .jpeg => .jpeg
  | .png => .png
  | .gif => .gif
  | .webp => .webp

/-- Embedding of `TryFrom<message::AssistantContent> for Content`
(types.rs, lines 412-440): text maps to an uncached text block, images are
rejected, a tool call keeps only id, name and arguments, and reasoning keeps
its first fragment (empty when none) plus the signature. -/
def assistantContentToAnth : AssistantContent → Except MessageError AnthContent
  | .text t => .ok (.text t.text none)
  | .image _ =>
    .error (.conversionError "Anthropic currently does not support images.")
  | .toolCall tc => .ok (.toolUse tc.id tc.function.name tc.function.arguments)
  | .reasoning r => .ok (.thinking (r.reasoning.head?.getD "") r.signature)

/-- Embedding of the tool-result content leg of
`TryFrom<message::Message> for Message` (types.rs, lines 458-479). -/
def toolResultContentToAnth : ToolResultContent → Except MessageError AnthToolResultContent
  | .text t => .ok (.text t.text)
  | .image img =>
    match img.data with
    | .base64 data =>
      match img.mediaType with
      | some mt => do
        let fmt ← imageFormatOfMedia mt
        .ok (.image ⟨.base64 data, fmt, .base64Tag⟩)
      | none => .error (.conversionError "Image media type is required")
    | _ =>
      .error (.conversionError "Only base64 strings can be used with the Anthropic API")

/-- Embedding of the user-content leg of `TryFrom<message::Message> for Message`
(types.rs, lines 449-552). -/
def userContentToAnth : UserContent → Except MessageError AnthContent
  | .text t => .ok (.text t.text none)
  | .toolResult tr => do
    let content ← tr.content.tryMap toolResultContentToAnth
    .ok (.toolResult tr.id content none none)
  | .image img =>
    match img.mediaType with
    | none => .error (.conversionError "Image media type is required for Claude API")
    | some mt =>
      match img.data with
      | .base64 data => do
        let fmt ← imageFormatOfMedia mt
        .ok (.image ⟨.base64 data, fmt, .base64Tag⟩ none)
      | .url u => do
        let fmt ← imageFormatOfMedia mt
        .ok (.image ⟨.url u, fmt, .urlTag⟩ none)
      | .unknown => .error (.conversionError "Image content has no body")
      | _ => .error (.conversionError "Unsupported document type")
  | .document d =>
    match d.mediaType with
    | none => .error (.conversionError "Document media type is required")
    | some mt =>
      match d.data with
      | .base64 data => documentSourceToAnth data mt
      | .strKind data => documentSourceToAnth data mt
      | _ => .error (.conversionError "Only base64 encoded documents currently supported")
  | .audio _ => .error (.conversionError "Audio is not supported in Anthropic")
  | .video _ => .error (.conversionError "Video is not supported in Anthropic")
where
  /-- Document body plus media type into an Anthropic document block
  (PDF-only, base64-tagged source). -/
  documentSourceToAnth (data : String) (mt : DocumentMediaType) :
      Except MessageError AnthContent :=
    match mt with
    | .pdf => .ok (.document ⟨data, .pdf, .base64Tag⟩ none)
    | _ => .error (.conversionError "Anthropic only supports PDF documents")

/-- Embedding of `TryFrom<message::Message> for Message` (types.rs,
lines 442-561): a user turn keeps its role and converts each content block; an
assistant turn drops its response id and converts each content block. -/
def toAnthMessage : Message → Except MessageError AnthMessage
  | .user content => do
    let c ← content.tryMap userContentToAnth
    .ok ⟨.user, c⟩
  | .assistant _ content => do
    let c ← content.tryMap assistantContentToAnth
    .ok ⟨.assistant, c⟩

/-- Embedding of `From<ToolResultContent> for message::ToolResultContent`
(types.rs, lines 587-598): text stays text; an image keeps its inner string
as a base64 body with the format mapped back. -/
def anthToolResultContentToInternal : AnthToolResultContent → ToolResultContent
  | .text t => ToolResultContent.mkText t
  | .image src =>
    let dataStr := match src.data with
      | .base64 s => s
      | .url s => s
    .image ⟨.base64 dataStr, some (mediaOfImageFormat src.mediaType), none, none⟩

/-- Embedding of `TryFrom<Content> for message::AssistantContent`
(types.rs, lines 563-585). -/
def anthContentToAssistant : AnthContent → Except MessageError AssistantContent
  | .text t _ => .ok (AssistantContent.mkText t)
  | .toolUse id name input => .ok (AssistantContent.mkToolCall id name input)
  | .thinking t sig => .ok (.reasoning ((Reasoning.new t).withSignature sig))
  | _ =>
    .error (.conversionError "Content did not contain a message, tool call, or reasoning")

/-- Embedding of the user-content leg of `TryFrom<Message> for message::Message`
(types.rs, lines 605-636). -/
def anthContentToUser : AnthContent → Except MessageError UserContent
  | .text t _ => .ok (UserContent.mkText t)
  | .toolResult toolUseId content _ _ =>
    .ok (UserContent.mkToolResult toolUseId (content.map anthToolResultContentToInternal))
  | .image src _ =>
    let dataKind := match src.data with
      | .base64 s => DocumentSourceKind.base64 s
      | .url u => DocumentSourceKind.url u
    .ok (.image ⟨dataKind, some (mediaOfImageFormat src.mediaType), none, none⟩)
  | .document src _ =>
    .ok (.document ⟨.strKind src.data, some .pdf, none⟩)
  | _ => .error (.conversionError "Unsupported content type for User role")

/-- Embedding of `TryFrom<Message> for message::Message` (types.rs,
lines 600-653): a user message converts each block back; an assistant message
converts back (with no response id) when its first block is text, tool use or
thinking, and is rejected otherwise. -/
def fromAnthMessage (m : AnthMessage) : Except MessageError Message :=
  match m.role with
  | .user => do
    let c ← m.content.tryMap anthContentToUser
    .ok (.user c)
  | .assistant =>
    match m.content.first with
    | .text _ _ | .toolUse _ _ _ | .thinking _ _ => do
      let c ← m.content.tryMap anthContentToAssistant
      .ok (.assistant none c)
    | _ =>
      .error (.conversionError "Unsupported message for Assistant role")

/-!
Stream aggregator. Modelled from the spec: the streaming module of the
repository is absent from the sources; the state machine below follows spec
section 4.1 (per-turn text and reasoning buffers, a per-index tool-call
buffer map, content built at FinalResponse as text, then tool calls in index
order, then reasoning). The JSON parse applied to the sealed argument buffers
is the external serde parser, passed in as a function.
-/

/-- Incremental stream event preceding the closing FinalResponse
(spec section 3 `StreamEvent`). -/
inductive DeltaEvent where
  | textDelta (t : String)
  | reasoningDelta (id : Option String) (t : String)
  | toolCallStart (idx : Nat) (id name : String)
  | toolCallArgDelta (idx : Nat) (fragment : String)
  | toolCallComplete (idx : Nat) (args : String)
deriving Repr

/-- One in-flight tool-call buffer, keyed by stream index. -/
structure ToolEntry where
  idx : Nat
  id : String
  name : String
  buffer : String
deriving Repr, DecidableEq

/-- Aggregator state for one turn: text buffer, reasoning buffer and the
tool-call buffers kept sorted by index. -/
structure AggState where
  text : String
  reasoning : String
  tools : List ToolEntry
deriving Repr, DecidableEq

/-- The empty per-turn state. -/
def AggState.init : AggState := ⟨"", "", []⟩

/-- Update the entry at index `i` with `f`, or insert `mk` at its sorted
position when no entry with that index exists. -/
def upsertTool (entries : List ToolEntry) (i : Nat) (f : ToolEntry → ToolEntry)
    (mk : ToolEntry) : List ToolEntry :=
  match entries with
  | [] => [mk]
  | e :: es =>
    if e.idx = i then f e :: es
    else if i < e.idx then mk :: e :: es
    else e :: upsertTool es i f mk

/-- One aggregation step (spec section 4.1): append text and reasoning deltas
to their buffers; a tool-call start inserts a fresh buffer for its index; an
argument delta appends its fragment to that index's buffer; a completion
seals the buffer with the full argument string; a start is synthesized when a
fragment or completion arrives for an unseen index. -/
def aggStep (st : AggState) (e : DeltaEvent) : AggState :=
  match e with
  | .textDelta t => { st with text := st.text ++ t }
  | .reasoningDelta _ t => { st with reasoning := st.reasoning ++ t }
  | .toolCallStart i id name =>
    { st with tools := upsertTool st.tools i (fun e => e) ⟨i, id, name, ""⟩ }
  | .toolCallArgDelta i fragment =>
    let app := fun (e : ToolEntry) => { e with buffer := e.buffer ++ fragment }
    { st with tools := upsertTool st.tools i app ⟨i, "", "", fragment⟩ }
  | .toolCallComplete i args =>
    let sealBuf := fun (e : ToolEntry) => { e with buffer := args }
    { st with tools := upsertTool st.tools i sealBuf ⟨i, "", "", args⟩ }

/-- Process a whole delta-event sequence from the empty state. -/
def aggProcess (events : List DeltaEvent) : AggState :=
  events.foldl aggStep AggState.init

/-- Aggregation failure at stream close (spec section 7 `AggregationError`). -/
inductive AggError where
  | malformedArguments (idx : Nat)
  | emptyContent
deriving Repr, DecidableEq

/-- Terminal artifact of one streamed turn (spec section 3 `AggregatedResponse`). -/
structure AggregatedResponse where
  content : OneOrMany AssistantContent
  usage : Usage
deriving Repr

/-- Parsing of one sealed argument buffer at stream close: a tool-call
content entry, or an AggregationError for malformed JSON. -/
def sealedToolContent (parse : String → Option Json) (e : ToolEntry) :
    Except AggError AssistantContent :=
  match parse e.buffer with
  | some v => .ok (AssistantContent.toolCall (ToolCall.new e.id ⟨e.name, v⟩))
  | none => .error (AggError.malformedArguments e.idx)

/-- Finalization at FinalResponse: parse every sealed argument buffer (a
failure is an AggregationError), then list the accumulated text (if
non-empty) first, the tool calls in buffer order, and the accumulated
reasoning (if non-empty) last. -/
def aggFinalize (parse : String → Option Json) (usage : Usage) (st : AggState) :
    Except AggError AggregatedResponse :=
  match st.tools.mapM (sealedToolContent parse) with
  | .error e => .error e
  | .ok toolContents =>
    match OneOrMany.many
        ((if st.text = "" then [] else [AssistantContent.mkText st.text])
          ++ toolContents
          ++ (if st.reasoning = "" then []
              else [AssistantContent.reasoning (Reasoning.new st.reasoning)])) with
    | .ok content => .ok ⟨content, usage⟩
    | .error _ => .error .emptyContent

/-- Aggregation of a delta-event sequence closed by a FinalResponse carrying
`usage`: process the events in arrival order, then finalize. -/
def aggregate (parse : String → Option Json) (usage : Usage)
    (events : List DeltaEvent) : Except AggError AggregatedResponse :=
  aggFinalize parse usage (aggProcess events)

/-- The parsed tool-call argument values of a finalized response, in content
order. -/
def toolArgsOf (r : AggregatedResponse) : List Json :=
  r.content.toList.filterMap (fun c =>
    match c with
    | .toolCall tc => some tc.function.arguments
    | _ => none)

/-!
Tool orchestrator. Modelled from the spec: the agent/orchestration module of
the repository is absent from the sources; the loop below follows spec
section 4.3 (repeat model calls; execute the requested tools; append one user
message holding all tool results in call order; stop on a turn with no tool
calls, on a fatal tool error, or when the turn limit is exhausted, the last
assistant response surfacing in the limit case). The model is a function of
the conversation history, so each turn sees the results appended for it.
-/

/-- Outcome of one tool invocation as the tool implementation reports it:
output, or an error message flagged fatal or recoverable. -/
inductive ToolReply where
  | ok (out : String)
  | err (msg : String) (fatal : Bool)
deriving Repr, DecidableEq

/-- Whether a reply is a fatal error. -/
def ToolReply.isFatal : ToolReply → Bool
  | .err _ true => true
  | _ => false

/-- The registered tools, looked up by name and applied to parsed arguments. -/
def ToolSet : Type := String → Json → ToolReply

/-- Orchestrator-level failure. -/
inductive OrchError where
  | fatalTool (msg : String)
  | emptyResults
deriving Repr, DecidableEq

/-- The aggregated content of one assistant turn as the orchestrator sees it. -/
structure AssistantTurn where
  content : OneOrMany AssistantContent
deriving Repr

/-- The tool calls requested by an assistant turn, in content order. -/
def toolCallsOf (t : AssistantTurn) : List ToolCall :=
  t.content.toList.filterMap (fun c =>
    match c with
    | .toolCall tc => some tc
    | _ => none)

/-- The assistant message appended to history for a turn (no response id in
this model). -/
def assistantMsgOf (t : AssistantTurn) : Message := .assistant none t.content

/-- One tool invocation: a success or a recoverable error becomes exactly one
ToolResult carrying the calling ToolCall's id and call id, with the output or
the error message as text content; a fatal error aborts. -/
def invokeCall (tools : ToolSet) (c : ToolCall) : Except OrchError ToolResult :=
  match tools c.function.name c.function.arguments with
  | .ok out => .ok ⟨c.id, c.callId, OneOrMany.one (ToolResultContent.mkText out)⟩
  | .err msg false => .ok ⟨c.id, c.callId, OneOrMany.one (ToolResultContent.mkText msg)⟩
  | .err msg true => .error (.fatalTool msg)

/-- Execute every tool call of one turn in call order, collecting one
ToolResult per call, or aborting on the first fatal error. -/
def executeTools (tools : ToolSet) : List ToolCall → Except OrchError (List ToolResult)
  | [] => .ok []
  | c :: cs =>
    match invokeCall tools c with
    | .error e => .error e
    | .ok r =>
      match executeTools tools cs with
      | .error e => .error e
      | .ok rs => .ok (r :: rs)

/-- Terminal state of the orchestration loop. -/
inductive OrchOutcome where
  | done (resp : AssistantTurn)
  | failed (e : OrchError)
  | turnLimitExceeded (resp : AssistantTurn)
deriving Repr

/-- Result of one orchestration run: terminal state plus the number of model
calls made. -/
structure OrchResult where
  outcome : OrchOutcome
  modelCalls : Nat
deriving Repr

/-- The history after one full loop iteration at history `h`: the assistant
turn and the user message of its tool results are appended (unchanged when
tool execution cannot complete, in which case the loop stops anyway). -/
def orchStepHistory (model : List Message → AssistantTurn) (tools : ToolSet)
    (h : List Message) : List Message :=
  let resp := model h
  match executeTools tools (toolCallsOf resp) with
  | .ok results =>
    match OneOrMany.many (results.map UserContent.toolResult) with
    | .ok u => h ++ [assistantMsgOf resp, .user u]
    | .error _ => h
  | .error _ => h

/-- The history seen by the model call `k` steps into the loop. -/
def historyAt (model : List Message → AssistantTurn) (tools : ToolSet)
    (h : List Message) : Nat → List Message
  | 0 => h
  | k + 1 => historyAt model tools (orchStepHistory model tools h) k

/-- The orchestration loop body: call the model once on the current history;
stop at `done` when the turn requests no tools; otherwise execute the tools,
failing on a fatal error; when the turn budget is spent, stop at
`turnLimitExceeded` carrying this last assistant response; otherwise append
the assistant turn and the tool results to history and loop. `fuel` counts
the loop iterations still allowed after the current one. -/
def runAux (model : List Message → AssistantTurn) (tools : ToolSet) :
    Nat → List Message → Nat → OrchResult
  | fuel, h, calls =>
    let resp := model h
    let tcs := toolCallsOf resp
    if tcs.isEmpty then ⟨.done resp, calls + 1⟩
    else
      match executeTools tools tcs with
      | .error e => ⟨.failed e, calls + 1⟩
      | .ok results =>
        match fuel with
        | 0 => ⟨.turnLimitExceeded resp, calls + 1⟩
        | fuel + 1 =>
          match OneOrMany.many (results.map UserContent.toolResult) with
          | .error _ => ⟨.failed .emptyResults, calls + 1⟩
          | .ok u => runAux model tools fuel (h ++ [assistantMsgOf resp, .user u]) (calls + 1)

/-- One orchestration run with a turn limit of `maxTurns` (meaningful for a
positive limit, as configured in practice). -/
def orchRun (model : List Message → AssistantTurn) (tools : ToolSet)
    (maxTurns : Nat) (history : List Message) : OrchResult :=
  runAux model tools (maxTurns - 1) history 0

/-- A tool set none of whose replies is fatal. -/
def nonFatalTools (tools : ToolSet) : Prop :=
  ∀ n a, (tools n a).isFatal = false

/-- The single ToolResult an invocation of `c` yields when no fatal error
occurs: ids copied from the call, text content from the output or the error
message. -/
def resultOfCall (tools : ToolSet) (c : ToolCall) : ToolResult :=
  match tools c.function.name c.function.arguments with
  | .ok out => ⟨c.id, c.callId, OneOrMany.one (ToolResultContent.mkText out)⟩
  | .err msg _ => ⟨c.id, c.callId, OneOrMany.one (ToolResultContent.mkText msg)⟩

/-!
Spec-side description of the tool-output parsing convention, written from the
claim wording: a text entry for the rendered "response" value, one image per
qualifying "parts" element, a top-level image entry, with the whole original
string as text otherwise.
-/

/-- The text entry contributed by a top-level "response" value, when present. -/
def specResponseEntry (j : Json) : List ToolResultContent :=
  match j.get "response" with
  | some r => [ToolResultContent.mkText (renderJson r)]
  | none => []

/-- One image entry per "parts" element whose type is "image" with string
data and mimeType fields (no entries when "parts" is absent or not an array). -/
def specPartsImages (j : Json) : List ToolResultContent :=
  match j.get "parts" with
  | some (Json.arr parts) =>
    parts.filterMap (fun p =>
      match (p.get "type").bind Json.asStr, (p.get "data").bind Json.asStr,
          (p.get "mimeType").bind Json.asStr with
      | some t, some data, some mimeType =>
        if t = "image" then some (imageFromDataMime data mimeType) else none
      | _, _, _ => none)
  | _ => []

/-- A single image entry for a value of type "image" with string data and
mimeType fields. -/
def specTopImage (j : Json) : Option ToolResultContent :=
  match (j.get "type").bind Json.asStr, (j.get "data").bind Json.asStr,
      (j.get "mimeType").bind Json.asStr with
  | some t, some data, some mimeType =>
    if t = "image" then some (imageFromDataMime data mimeType) else none
  | _, _, _ => none

/-- The non-hybrid fallback: the top-level image entry when one applies,
otherwise one text entry holding the entire original string. -/
def specFallback (j : Json) (s : String) : List ToolResultContent :=
  match specTopImage j with
  | some img => [img]
  | none => [ToolResultContent.mkText s]

/-- The amended tool-output convention: the hybrid entries when the value has
a "response" or "parts" key and they are non-empty; the fallback rules
otherwise; one text entry with the whole string when parsing fails. -/
def toolOutputSpec (parsed : Option Json) (s : String) : List ToolResultContent :=
  match parsed with
  | none => [ToolResultContent.mkText s]
  | some j =>
    if (j.get "response").isSome || (j.get "parts").isSome then
      let entries := specResponseEntry j ++ specPartsImages j
      if entries.isEmpty then specFallback j s else entries
    else specFallback j s

theorem hybridResults_eq_spec (j : Json) :
    hybridResults j = specResponseEntry j ++ specPartsImages j := by
  unfold hybridResults specResponseEntry specPartsImages
  refine congrArg₂ (· ++ ·) rfl ?_
  cases hp : j.get "parts" with
  | none => rfl
  | some p =>
    cases p <;> simp [Json.asArr]
    case arr parts =>
      apply List.filterMap_congr
      intro x _
      unfold partEntry
      cases hty : (x.get "type").bind Json.asStr with
      | none =>
        cases (x.get "data").bind Json.asStr <;>
          cases (x.get "mimeType").bind Json.asStr <;> simp
      | some t =>
        by_cases ht : t = "image" <;>
          cases (x.get "data").bind Json.asStr <;>
            cases (x.get "mimeType").bind Json.asStr <;> simp [ht]

theorem topLevelImage_eq_spec (j : Json) : topLevelImage j = specTopImage j := by
  unfold topLevelImage specTopImage
  cases hty : (j.get "type").bind Json.asStr with
  | none =>
    cases (j.get "data").bind Json.asStr <;>
      cases (j.get "mimeType").bind Json.asStr <;> simp
  | some t =>
    by_cases ht : t = "image" <;>
      cases (j.get "data").bind Json.asStr <;>
        cases (j.get "mimeType").bind Json.asStr <;> simp [ht]

/-- C6 (amended): `from_tool_output` realizes the amended convention: a JSON
value with a top-level "response" or "parts" key yields the text entry for
"response" (when present) followed by one image entry per image part, except
that when this extraction yields no entries the value falls through to the
remaining rules; a value of type "image" with data and mimeType yields
exactly one image entry (URL source for http/https data, base64 otherwise);
every other string, including unparseable ones, yields one text entry with
the entire original string. -/
theorem from_tool_output_characterization (parsed : Option Json) (s : String) :
    (fromToolOutput parsed s).toList = toolOutputSpec parsed s := by
  unfold fromToolOutput toolOutputSpec
  cases parsed with
  | none => rfl
  | some j =>
    by_cases hkeys : ((j.get "response").isSome || (j.get "parts").isSome) = true
    · simp only [hkeys, if_true]
      rw [← hybridResults_eq_spec]
      by_cases hres : (hybridResults j).isEmpty
      · have hnil : hybridResults j = [] := by
          cases h : hybridResults j with
          | nil => rfl
          | cons a l => rw [h] at hres; simp [List.isEmpty] at hres
        simp only [hnil, List.isEmpty_nil, Bool.not_true, if_true, if_false]
        unfold specFallback
        rw [← topLevelImage_eq_spec]
        cases topLevelImage j <;> simp [OneOrMany.one, OneOrMany.toList]
      · have hne : (hybridResults j).isEmpty = false := by
          cases h : (hybridResults j).isEmpty
          · rfl
          · exact absurd h hres
        simp only [hne, Bool.not_false, if_true, if_false]
        cases h : hybridResults j with
        | nil => rw [h] at hne; simp [List.isEmpty] at hne
        | cons a l =>
          simp [OneOrMany.many, OneOrMany.toList]
    · simp only [hkeys, if_false]
      unfold specFallback
      rw [← topLevelImage_eq_spec]
      cases topLevelImage j <;> simp [OneOrMany.one, OneOrMany.toList]

/-- C6 (counterexample): the input whose JSON value has a "parts" key with an
empty array falls inside the claim's hybrid clause, where the claim predicts
a sequence with no text entry and no image entries; the code instead yields
one text entry containing the entire original string. -/
theorem from_tool_output_empty_parts_fallback :
    ((Json.obj [("parts", Json.arr [])]).get "parts").isSome = true
    ∧ specResponseEntry (Json.obj [("parts", Json.arr [])])
        ++ specPartsImages (Json.obj [("parts", Json.arr [])]) = []
    ∧ (fromToolOutput (some (Json.obj [("parts", Json.arr [])]))
        "\x7b\"parts\":[]\x7d").toList =
        [ToolResultContent.mkText "\x7b\"parts\":[]\x7d"]
    ∧ (fromToolOutput (some (Json.obj [("parts", Json.arr [])]))
        "\x7b\"parts\":[]\x7d").toList ≠
        specResponseEntry (Json.obj [("parts", Json.arr [])])
          ++ specPartsImages (Json.obj [("parts", Json.arr [])]) := by
  refine ⟨rfl, rfl, rfl, ?_⟩
  intro h
  rw [show specResponseEntry (Json.obj [("parts", Json.arr [])])
        ++ specPartsImages (Json.obj [("parts", Json.arr [])]) = [] from rfl] at h
  exact List.cons_ne_nil _ _ h

/-- C8: constructing a NonEmptySequence from a non-empty list succeeds with
the list head as its first element; the empty list fails with the
EmptyCollection error. -/
theorem one_or_many_construction_first {α : Type} (x : α) (xs : List α) :
    (∃ r : OneOrMany α, OneOrMany.many (x :: xs) = .ok r ∧ r.first = x)
    ∧ OneOrMany.many ([] : List α) = .error .emptyList :=
  ⟨⟨⟨x, xs⟩, rfl, rfl⟩, rfl⟩

/-- The tool-call ids of a converted completion response, in choice order. -/
def choiceToolIds {R : Type} (r : CompletionResponseOf R) : List String :=
  r.choice.toList.filterMap (fun c =>
    match c with
    | .toolCall tc => some tc.id
    | _ => none)

/-- The tool-call argument values of a converted completion response, in
choice order. -/
def choiceToolArgs {R : Type} (r : CompletionResponseOf R) : List Json :=
  r.choice.toList.filterMap (fun c =>
    match c with
    | .toolCall tc => some tc.function.arguments
    | _ => none)

/-- An Ollama response whose assistant message carries two tool calls to the
same function with different arguments. -/
def ollamaDupResp : OllamaCompletionResponse :=
  { model := "m"
    createdAt := "t"
    message := .assistant "" none none none
      [⟨⟨"get_weather", Json.str "a"⟩⟩, ⟨⟨"get_weather", Json.str "b"⟩⟩]
    done := true
    doneReason := none
    totalDuration := none
    loadDuration := none
    promptEvalCount := none
    promptEvalDuration := none
    evalCount := none
    evalDuration := none }

/-- C2 (counterexample): the Ollama adapter derives tool-call ids from the
function name, so one converted assistant turn can hold two distinct
invocation requests (different arguments) with the same id; an id does not
uniquely identify one invocation request inside one assistant turn. -/
theorem ollama_duplicate_tool_call_ids :
    (ollamaTryFrom ollamaDupResp).map choiceToolIds = .ok ["get_weather", "get_weather"]
    ∧ (ollamaTryFrom ollamaDupResp).map choiceToolArgs = .ok [Json.str "a", Json.str "b"]
    ∧ Json.str "a" ≠ Json.str "b" := by
  refine ⟨rfl, rfl, fun h => ?_⟩
  injection h with h2
  exact absurd h2 (by decide)

theorem invokeCall_ids (tools : ToolSet) (c : ToolCall) (r : ToolResult)
    (h : invokeCall tools c = .ok r) : r.id = c.id ∧ r.callId = c.callId := by
  unfold invokeCall at h
  cases ht : tools c.function.name c.function.arguments with
  | ok out =>
    rw [ht] at h
    cases h
    exact ⟨rfl, rfl⟩
  | err msg fatal =>
    rw [ht] at h
    cases fatal with
    | false =>
      cases h
      exact ⟨rfl, rfl⟩
    | true => simp at h

/-- C2 (amended): when tool execution completes for a turn, it yields exactly
one ToolResult per tool call, in call order, each carrying the id and call id
of its originating call. (The uniqueness of an id within one assistant turn
does not hold: providers without native call ids reuse the function name.) -/
theorem tool_results_pair_with_calls (tools : ToolSet) (calls : List ToolCall)
    (results : List ToolResult) (h : executeTools tools calls = .ok results) :
    results.map (fun r => (r.id, r.callId)) = calls.map (fun c => (c.id, c.callId)) := by
  induction calls generalizing results with
  | nil =>
    unfold executeTools at h
    cases h
    rfl
  | cons c cs ih =>
    unfold executeTools at h
    cases hi : invokeCall tools c with
    | error e => rw [hi] at h; cases h
    | ok r =>
      rw [hi] at h
      cases he : executeTools tools cs with
      | error e => rw [he] at h; cases h
      | ok rs =>
        rw [he] at h
        cases h
        obtain ⟨hid, hcid⟩ := invokeCall_ids tools c r hi
        simp only [List.map_cons, hid, hcid, ih rs he]

/-- Closed instance of the C2 theorem at a one-call turn with a tool that
answers "out". -/
theorem tool_results_pair_with_calls_witness :
    executeTools (fun _ _ => ToolReply.ok "out") [ToolCall.new "a" ⟨"t", Json.null⟩] =
      .ok [⟨"a", none, OneOrMany.one (ToolResultContent.mkText "out")⟩]
    ∧ ([(⟨"a", none, OneOrMany.one (ToolResultContent.mkText "out")⟩ : ToolResult)].map
        (fun r => (r.id, r.callId)))
      = [ToolCall.new "a" ⟨"t", Json.null⟩].map (fun c => (c.id, c.callId)) :=
  ⟨rfl, tool_results_pair_with_calls (fun _ _ => ToolReply.ok "out") _ _ rfl⟩

/-- Whether an assistant content entry is a text or tool-call entry. -/
def isTextOrToolCall : AssistantContent → Bool
  | .text _ => true
  | .toolCall _ => true
  | _ => false

theorem many_toList {α : Type} {l : List α} {o : OneOrMany α}
    (h : OneOrMany.many l = .ok o) : o.toList = l := by
  cases l with
  | nil => simp [OneOrMany.many] at h
  | cons x xs =>
    unfold OneOrMany.many at h
    cases h
    rfl

/-- C9: converting an Ollama assistant chat response yields a choice holding
only text and tool-call entries (never reasoning), while the thinking text
survives only in the rebuilt raw response. -/
theorem ollama_no_reasoning_in_choice
    (resp : OllamaCompletionResponse) (content : String) (thinking : Option String)
    (images : Option (List String)) (nm : Option String) (tcs : List OllamaToolCall)
    (r : CompletionResponseOf OllamaCompletionResponse)
    (hmsg : resp.message = .assistant content thinking images nm tcs)
    (hok : ollamaTryFrom resp = .ok r) :
    r.choice.toList.all isTextOrToolCall = true
    ∧ r.rawResponse.message = OllamaMessage.assistant content thinking none none tcs := by
  unfold ollamaTryFrom at hok
  rw [hmsg] at hok
  simp only at hok
  cases hm : OneOrMany.many
      ((if content ≠ "" then [AssistantContent.mkText content] else [])
        ++ tcs.map (fun tc =>
            AssistantContent.mkToolCall tc.function.name tc.function.name
              tc.function.arguments)) with
  | error e => rw [hm] at hok; simp at hok
  | ok choice =>
    rw [hm] at hok
    cases hok
    refine ⟨?_, rfl⟩
    rw [many_toList hm]
    simp only [List.all_append, List.all_map, Bool.and_eq_true]
    constructor
    · by_cases hc : content ≠ "" <;> simp [hc, AssistantContent.mkText, isTextOrToolCall]
    · simp [Function.comp, AssistantContent.mkToolCall, isTextOrToolCall]

/-- An Ollama response carrying non-empty thinking text alongside plain
content, the concrete input of the C9 witness. -/
def ollamaThinkResp : OllamaCompletionResponse :=
  { model := "m"
    createdAt := "t"
    message := .assistant "hi" (some "think") none none []
    done := true
    doneReason := none
    totalDuration := none
    loadDuration := none
    promptEvalCount := none
    promptEvalDuration := none
    evalCount := none
    evalDuration := none }

/-- Closed instance of the C9 theorem at a thinking-bearing response. -/
theorem ollama_no_reasoning_in_choice_witness :
    ollamaThinkResp.message = OllamaMessage.assistant "hi" (some "think") none none []
    ∧ ((⟨⟨AssistantContent.mkText "hi", []⟩, ⟨0, 0, 0, 0⟩, ollamaThinkResp⟩ :
          CompletionResponseOf OllamaCompletionResponse).choice.toList.all isTextOrToolCall
        = true
      ∧ (⟨⟨AssistantContent.mkText "hi", []⟩, ⟨0, 0, 0, 0⟩, ollamaThinkResp⟩ :
          CompletionResponseOf OllamaCompletionResponse).rawResponse.message
        = OllamaMessage.assistant "hi" (some "think") none none []) :=
  ⟨rfl, ollama_no_reasoning_in_choice ollamaThinkResp "hi" (some "think") none none [] _ rfl rfl⟩

/-- A completion request carrying one document ahead of a one-message history. -/
def geminiDocReq : CompletionRequest :=
  { preamble := none
    chatHistory := [Message.user (OneOrMany.one (UserContent.mkText "hi"))]
    documents := ["attached document"] }

/-- C7 (counterexample): the Gemini adapter builds its outgoing contents from
the chat history alone; a request with a normalized documents message yields
contents without it, so the documents are not placed before the history. -/
theorem gemini_drops_documents :
    geminiDocReq.normalizedDocuments
      = some (.user (OneOrMany.one (UserContent.mkText "attached document")))
    ∧ geminiAssembleContents (fun m => (.ok m : Except MessageError Message)) geminiDocReq
      = .ok [Message.user (OneOrMany.one (UserContent.mkText "hi"))]
    ∧ ([Message.user (OneOrMany.one (UserContent.mkText "hi"))] : List Message)
      ≠ [Message.user (OneOrMany.one (UserContent.mkText "attached document")),
         Message.user (OneOrMany.one (UserContent.mkText "hi"))] := by
  refine ⟨rfl, rfl, fun h => ?_⟩
  have hlen := congrArg List.length h
  simp at hlen

/-- C7 (amended): the Ollama adapter places the normalized documents message
ahead of the converted chat history (whose last message is the live user
turn), behind only the optional system preamble; the Gemini adapter, by
contrast, never consults the request documents, so its outgoing contents are
unchanged by them. -/
theorem docs_before_history_ollama
    (conv : Message → Except MessageError (List OllamaMessage))
    (req : CompletionRequest) (dm : Message) (dMsgs : List OllamaMessage)
    (hMsgs : List (List OllamaMessage))
    (hdocs : req.normalizedDocuments = some dm)
    (hdm : conv dm = .ok dMsgs)
    (hh : req.chatHistory.mapM conv = .ok hMsgs) :
    ollamaAssembleMessages conv req =
      .ok ((match req.preamble with
            | some p => [OllamaMessage.mkSystem p]
            | none => []) ++ (dMsgs ++ hMsgs.flatten))
    ∧ ∀ (γ : Type) (conv2 : Message → Except MessageError γ)
        (req2 : CompletionRequest) (docs2 : List String),
        geminiAssembleContents conv2 { req2 with documents := docs2 }
          = geminiAssembleContents conv2 req2 := by
  constructor
  · unfold ollamaAssembleMessages
    rw [hdocs]
    simp only [List.singleton_append, List.mapM_cons, hdm, hh]
    simp [List.flatten]
    rfl
  · intro γ conv2 req2 docs2
    rfl

/-- The concrete request of the C7 witness. -/
def c7Req : CompletionRequest :=
  { preamble := some "sys"
    chatHistory := [Message.user (OneOrMany.one (UserContent.mkText "hi"))]
    documents := ["doc"] }

/-- The concrete message conversion of the C7 witness. -/
def c7Conv : Message → Except MessageError (List OllamaMessage) :=
  fun _ => .ok [OllamaMessage.user "u" none none]

/-- Closed instance of the C7 theorem at the concrete request and conversion. -/
theorem docs_before_history_ollama_witness :
    c7Req.normalizedDocuments = some (.user (OneOrMany.one (UserContent.mkText "doc")))
    ∧ c7Conv (.user (OneOrMany.one (UserContent.mkText "doc")))
      = .ok [OllamaMessage.user "u" none none]
    ∧ c7Req.chatHistory.mapM c7Conv = .ok [[OllamaMessage.user "u" none none]]
    ∧ (ollamaAssembleMessages c7Conv c7Req =
        .ok ((match c7Req.preamble with
              | some p => [OllamaMessage.mkSystem p]
              | none => []) ++ ([OllamaMessage.user "u" none none]
                  ++ ([[OllamaMessage.user "u" none none]] : List (List OllamaMessage)).flatten))
      ∧ ∀ (γ : Type) (conv2 : Message → Except MessageError γ)
          (req2 : CompletionRequest) (docs2 : List String),
          geminiAssembleContents conv2 { req2 with documents := docs2 }
            = geminiAssembleContents conv2 req2) :=
  ⟨rfl, rfl, rfl,
    docs_before_history_ollama c7Conv c7Req
      (.user (OneOrMany.one (UserContent.mkText "doc")))
      [OllamaMessage.user "u" none none]
      [[OllamaMessage.user "u" none none]] rfl rfl rfl⟩

/-!
Round trip through the Anthropic wire format (C10).
-/

/-- Conversion to the Anthropic wire message followed by conversion back. -/
def anthRoundTrip (m : Message) : Except MessageError Message :=
  match toAnthMessage m with
  | .ok a => fromAnthMessage a
  | .error e => .error e

/-- Text-only tool-result content. -/
def simpleToolResultContent : ToolResultContent → Bool
  | .text _ => true
  | _ => false

/-- User content inside the claim class: plain text, or a tool result with no
call id and text-only content. -/
def c10UserContentOk : UserContent → Bool
  | .text _ => true
  | .toolResult tr => tr.callId.isNone && tr.content.toList.all simpleToolResultContent
  | _ => false

/-- Assistant content inside the claim class as the claim words it: plain
text, tool calls, and single-fragment reasoning. -/
def c10ClaimAssistantOk : AssistantContent → Bool
  | .text _ => true
  | .toolCall _ => true
  | .reasoning r => r.reasoning.length == 1
  | _ => false

/-- The claim's message class, as stated. -/
def c10ClaimClass : Message → Bool
  | .user content => content.toList.all c10UserContentOk
  | .assistant id content => id.isNone && content.toList.all c10ClaimAssistantOk

/-- Assistant content inside the amended class: tool calls additionally carry
no call id, signature or extra params, and reasoning carries no id. -/
def c10AssistantOk : AssistantContent → Bool
  | .text _ => true
  | .toolCall tc => tc.callId.isNone && tc.signature.isNone && tc.additionalParams.isNone
  | .reasoning r => r.id.isNone && (r.reasoning.length == 1)
  | _ => false

/-- The amended message class. -/
def c10Simple : Message → Bool
  | .user content => content.toList.all c10UserContentOk
  | .assistant id content => id.isNone && content.toList.all c10AssistantOk

/-- Anthropic content constructors accepted as the first block of an
assistant message on the way back. -/
def anthAssistantHead : AnthContent → Bool
  | .text _ _ => true
  | .toolUse _ _ _ => true
  | .thinking _ _ => true
  | _ => false

theorem mapM_ok_roundtrip {α β ε : Type} (f : α → Except ε β) (g : β → Except ε α)
    (l : List α) (h : ∀ a ∈ l, ∃ b, f a = .ok b ∧ g b = .ok a) :
    ∃ bl, l.mapM f = .ok bl ∧ bl.mapM g = .ok l := by
  induction l with
  | nil => exact ⟨[], rfl, rfl⟩
  | cons a l ih =>
    obtain ⟨b, hfb, hgb⟩ := h a (List.mem_cons_self a l)
    obtain ⟨bl, h1, h2⟩ := ih (fun x hx => h x (List.mem_cons_of_mem a hx))
    refine ⟨b :: bl, ?_, ?_⟩
    · rw [List.mapM_cons, hfb, h1]; rfl
    · rw [List.mapM_cons, hgb, h2]; rfl

theorem mapM_ok_map {α β ε : Type} (f : α → Except ε β) (g : β → α)
    (l : List α) (h : ∀ a ∈ l, ∃ b, f a = .ok b ∧ g b = a) :
    ∃ bl, l.mapM f = .ok bl ∧ bl.map g = l := by
  induction l with
  | nil => exact ⟨[], rfl, rfl⟩
  | cons a l ih =>
    obtain ⟨b, hfb, hgb⟩ := h a (List.mem_cons_self a l)
    obtain ⟨bl, h1, h2⟩ := ih (fun x hx => h x (List.mem_cons_of_mem a hx))
    refine ⟨b :: bl, ?_, ?_⟩
    · rw [List.mapM_cons, hfb, h1]; rfl
    · rw [List.map_cons, hgb, h2]

theorem trc_roundtrip (c : ToolResultContent) (h : simpleToolResultContent c = true) :
    ∃ b, toolResultContentToAnth c = .ok b ∧ anthToolResultContentToInternal b = c := by
  cases c with
  | text t => exact ⟨.text t.text, rfl, rfl⟩
  | image i => simp [simpleToolResultContent] at h

theorem user_content_roundtrip (uc : UserContent) (h : c10UserContentOk uc = true) :
    ∃ ac, userContentToAnth uc = .ok ac ∧ anthContentToUser ac = .ok uc := by
  cases uc with
  | text t => exact ⟨.text t.text none, rfl, rfl⟩
  | toolResult tr =>
    simp only [c10UserContentOk, Bool.and_eq_true, List.all_eq_true] at h
    obtain ⟨hcid, hall⟩ := h
    obtain ⟨b0, hb0f, hb0g⟩ := trc_roundtrip tr.content.first
      (hall tr.content.first (by simp [OneOrMany.toList]))
    obtain ⟨bs, hbsf, hbsg⟩ := mapM_ok_map toolResultContentToAnth
      anthToolResultContentToInternal tr.content.rest
      (fun x hx => trc_roundtrip x (hall x (by simp [OneOrMany.toList, hx])))
    refine ⟨.toolResult tr.id ⟨b0, bs⟩ none none, ?_, ?_⟩
    · unfold userContentToAnth OneOrMany.tryMap
      dsimp only
      rw [hb0f, hbsf]
      rfl
    · unfold anthContentToUser
      obtain ⟨id, callId, content⟩ := tr
      simp only [Option.isNone_iff_eq_none] at hcid
      subst hcid
      simp only [UserContent.mkToolResult, OneOrMany.map, List.map_cons]
      rw [hb0g, hbsg]
  | image i => simp [c10UserContentOk] at h
  | audio a => simp [c10UserContentOk] at h
  | document d => simp [c10UserContentOk] at h
  | video v => simp [c10UserContentOk] at h

theorem assistant_content_roundtrip (ac : AssistantContent)
    (h : c10AssistantOk ac = true) :
    ∃ bc, assistantContentToAnth ac = .ok bc ∧ anthContentToAssistant bc = .ok ac
      ∧ anthAssistantHead bc = true := by
  cases ac with
  | text t => exact ⟨.text t.text none, rfl, rfl, rfl⟩
  | toolCall tc =>
    simp only [c10AssistantOk, Bool.and_eq_true, Option.isNone_iff_eq_none] at h
    obtain ⟨⟨hcid, hsig⟩, hap⟩ := h
    obtain ⟨id, callId, fn, sig, ap⟩ := tc
    simp only at hcid hsig hap
    subst hcid; subst hsig; subst hap
    exact ⟨.toolUse id fn.name fn.arguments, rfl, rfl, rfl⟩
  | reasoning r =>
    simp only [c10AssistantOk, Bool.and_eq_true, Option.isNone_iff_eq_none] at h
    obtain ⟨hid, hlen⟩ := h
    obtain ⟨id, frags, sig⟩ := r
    simp only at hid hlen
    subst hid
    cases frags with
    | nil => simp at hlen
    | cons x xs =>
      cases xs with
      | nil =>
        exact ⟨.thinking x sig, rfl, rfl, rfl⟩
      | cons y ys => simp at hlen
  | image i => simp [c10AssistantOk] at h

/-- C10 (amended): converting an internal message to the Anthropic wire
format and back is the identity for user turns of plain text and tool results
with no call id and text-only content, and for assistant turns with no
response id whose content is plain text, tool calls carrying no call id,
signature or extra params, and single-fragment reasoning carrying no id. -/
theorem anthropic_message_roundtrip (m : Message) (h : c10Simple m = true) :
    anthRoundTrip m = .ok m := by
  cases m with
  | user content =>
    simp only [c10Simple, List.all_eq_true] at h
    obtain ⟨b0, hb0f, hb0g⟩ := user_content_roundtrip content.first
      (h content.first (by simp [OneOrMany.toList]))
    obtain ⟨bs, hbsf, hbsg⟩ := mapM_ok_roundtrip userContentToAnth anthContentToUser
      content.rest (fun x hx => user_content_roundtrip x (h x (by simp [OneOrMany.toList, hx])))
    unfold anthRoundTrip toAnthMessage OneOrMany.tryMap
    dsimp only
    rw [hb0f, hbsf]
    show fromAnthMessage ⟨.user, b0, bs⟩ = .ok (.user content)
    unfold fromAnthMessage OneOrMany.tryMap
    dsimp only
    rw [hb0g, hbsg]
    rfl
  | assistant id content =>
    simp only [c10Simple, Bool.and_eq_true, Option.isNone_iff_eq_none,
      List.all_eq_true] at h
    obtain ⟨hid, hall⟩ := h
    subst hid
    obtain ⟨b0, hb0f, hb0g, hb0hd⟩ := assistant_content_roundtrip content.first
      (hall content.first (by simp [OneOrMany.toList]))
    obtain ⟨bs, hbsf, hbsg⟩ := mapM_ok_roundtrip assistantContentToAnth
      anthContentToAssistant content.rest
      (fun x hx =>
        (assistant_content_roundtrip x (hall x (by simp [OneOrMany.toList, hx]))).imp
          (fun b hb => ⟨hb.1, hb.2.1⟩))
    unfold anthRoundTrip toAnthMessage OneOrMany.tryMap
    dsimp only
    rw [hb0f, hbsf]
    show fromAnthMessage ⟨.assistant, b0, bs⟩ = .ok (.assistant none content)
    unfold fromAnthMessage
    cases b0 with
    | text t cc =>
      unfold OneOrMany.tryMap
      dsimp only
      rw [hb0g, hbsg]
      rfl
    | toolUse i n inp =>
      unfold OneOrMany.tryMap
      dsimp only
      rw [hb0g, hbsg]
      rfl
    | thinking t sig =>
      unfold OneOrMany.tryMap
      dsimp only
      rw [hb0g, hbsg]
      rfl
    | image s cc => simp [anthAssistantHead] at hb0hd
    | toolResult a b c d => simp [anthAssistantHead] at hb0hd
    | document s cc => simp [anthAssistantHead] at hb0hd

/-- Call ids of the tool calls of an assistant message, in content order. -/
def assistantCallIds : Message → List (Option String)
  | .assistant _ content =>
    content.toList.filterMap (fun c =>
      match c with
      | .toolCall tc => some tc.callId
      | _ => none)
  | _ => []

/-- An assistant message inside the claim's class whose single tool call
carries a call id. -/
def anthCallIdMsg : Message :=
  .assistant none (OneOrMany.one (.toolCall ⟨"id1", some "cid", ⟨"f", Json.null⟩, none, none⟩))

/-- C10 (counterexample): a claim-class assistant message whose tool call
carries a call id does not survive the round trip: the Anthropic tool_use
block has no call id field, so the way back yields a tool call with no call
id. -/
theorem anthropic_roundtrip_drops_call_id :
    c10ClaimClass anthCallIdMsg = true
    ∧ anthRoundTrip anthCallIdMsg
      = .ok (.assistant none
          (OneOrMany.one (.toolCall ⟨"id1", none, ⟨"f", Json.null⟩, none, none⟩)))
    ∧ assistantCallIds anthCallIdMsg = [some "cid"]
    ∧ assistantCallIds (.assistant none
        (OneOrMany.one (.toolCall ⟨"id1", none, ⟨"f", Json.null⟩, none, none⟩))) = [none]
    ∧ (some "cid" ≠ (none : Option String)) :=
  ⟨rfl, rfl, rfl, rfl, by decide⟩

/-- The concrete message of the C10 witness: plain text, a bare tool call and
one-fragment reasoning. -/
def anthSimpleMsg : Message :=
  .assistant none
    ⟨.text ⟨"a"⟩,
      [.toolCall (ToolCall.new "i" ⟨"f", Json.null⟩), .reasoning (Reasoning.new "r")]⟩

/-- Closed instance of the C10 theorem at a three-block assistant message. -/
theorem anthropic_message_roundtrip_witness :
    c10Simple anthSimpleMsg = true ∧ anthRoundTrip anthSimpleMsg = .ok anthSimpleMsg :=
  ⟨rfl, anthropic_message_roundtrip anthSimpleMsg rfl⟩

/-!
Claim C1: ordering of finalized aggregator content.
-/

/-- The text payload of a delta event (empty for every other kind). -/
def textOf : DeltaEvent → String
  | .textDelta t => t
  | _ => ""

/-- The reasoning payload of a delta event (empty for every other kind). -/
def reasoningOf : DeltaEvent → String
  | .reasoningDelta _ t => t
  | _ => ""

/-- The text accumulated over an event sequence, in arrival order. -/
def deltaTextAcc (evs : List DeltaEvent) : String :=
  evs.foldl (fun acc e => acc ++ textOf e) ""

/-- The reasoning accumulated over an event sequence, in arrival order. -/
def deltaReasoningAcc (evs : List DeltaEvent) : String :=
  evs.foldl (fun acc e => acc ++ reasoningOf e) ""

theorem aggStep_text (st : AggState) (e : DeltaEvent) :
    (aggStep st e).text = st.text ++ textOf e := by
  cases e <;> simp [aggStep, textOf]

theorem aggStep_reasoning (st : AggState) (e : DeltaEvent) :
    (aggStep st e).reasoning = st.reasoning ++ reasoningOf e := by
  cases e <;> simp [aggStep, reasoningOf]

theorem foldl_aggStep_text (evs : List DeltaEvent) :
    ∀ st : AggState, (evs.foldl aggStep st).text
      = evs.foldl (fun acc e => acc ++ textOf e) st.text := by
  induction evs with
  | nil => intro st; rfl
  | cons e evs ih =>
    intro st
    simp only [List.foldl_cons]
    rw [ih (aggStep st e), aggStep_text]

theorem foldl_aggStep_reasoning (evs : List DeltaEvent) :
    ∀ st : AggState, (evs.foldl aggStep st).reasoning
      = evs.foldl (fun acc e => acc ++ reasoningOf e) st.reasoning := by
  induction evs with
  | nil => intro st; rfl
  | cons e evs ih =>
    intro st
    simp only [List.foldl_cons]
    rw [ih (aggStep st e), aggStep_reasoning]

theorem aggProcess_text (evs : List DeltaEvent) :
    (aggProcess evs).text = deltaTextAcc evs :=
  foldl_aggStep_text evs AggState.init

theorem aggProcess_reasoning (evs : List DeltaEvent) :
    (aggProcess evs).reasoning = deltaReasoningAcc evs :=
  foldl_aggStep_reasoning evs AggState.init

theorem mem_upsertTool {x : ToolEntry} {es : List ToolEntry} {i : Nat}
    {f : ToolEntry → ToolEntry} {mk : ToolEntry}
    (hx : x ∈ upsertTool es i f mk) :
    (∃ y ∈ es, x = y ∨ x = f y) ∨ x = mk := by
  induction es with
  | nil =>
    simp [upsertTool] at hx
    exact Or.inr hx
  | cons e es ih =>
    unfold upsertTool at hx
    by_cases he : e.idx = i
    · simp only [he, if_true] at hx
      rcases List.mem_cons.mp hx with h1 | h2
      · exact Or.inl ⟨e, List.mem_cons_self e es, Or.inr h1⟩
      · exact Or.inl ⟨x, List.mem_cons_of_mem e h2, Or.inl rfl⟩
    · simp only [he, if_false] at hx
      by_cases hlt : i < e.idx
      · simp only [hlt, if_true] at hx
        rcases List.mem_cons.mp hx with h1 | h2
        · exact Or.inr h1
        · rcases List.mem_cons.mp h2 with h3 | h4
          · exact Or.inl ⟨e, List.mem_cons_self e es, Or.inl h3⟩
          · exact Or.inl ⟨x, List.mem_cons_of_mem e h4, Or.inl rfl⟩
      · simp only [hlt, if_false] at hx
        rcases List.mem_cons.mp hx with h1 | h2
        · exact Or.inl ⟨e, List.mem_cons_self e es, Or.inl h1⟩
        · rcases ih h2 with ⟨y, hy, hxy⟩ | hmk
          · exact Or.inl ⟨y, List.mem_cons_of_mem e hy, hxy⟩
          · exact Or.inr hmk

theorem pairwise_upsertTool {es : List ToolEntry} {i : Nat}
    {f : ToolEntry → ToolEntry} {mk : ToolEntry}
    (hf : ∀ e, (f e).idx = e.idx) (hmk : mk.idx = i)
    (hp : List.Pairwise (fun a b : ToolEntry => a.idx < b.idx) es) :
    List.Pairwise (fun a b : ToolEntry => a.idx < b.idx) (upsertTool es i f mk) := by
  induction es with
  | nil => simp [upsertTool]
  | cons e es ih =>
    obtain ⟨h1, h2⟩ := List.pairwise_cons.mp hp
    unfold upsertTool
    by_cases he : e.idx = i
    · simp only [he, if_true]
      exact List.pairwise_cons.mpr ⟨fun x hx => by rw [hf e]; exact he ▸ h1 x hx, h2⟩
    · simp only [he, if_false]
      by_cases hlt : i < e.idx
      · simp only [hlt, if_true]
        refine List.pairwise_cons.mpr ⟨?_, hp⟩
        intro x hx
        rcases List.mem_cons.mp hx with h3 | h4
        · rw [hmk, h3]; exact hlt
        · rw [hmk]; exact Nat.lt_trans hlt (h1 x h4)
      · simp only [hlt, if_false]
        refine List.pairwise_cons.mpr ⟨?_, ih h2⟩
        intro x hx
        rcases mem_upsertTool hx with ⟨y, hy, hxy⟩ | hxmk
        · rcases hxy with h5 | h6
          · rw [h5]; exact h1 y hy
          · rw [h6, hf y]; exact h1 y hy
        · rw [hxmk, hmk]
          omega

theorem aggStep_tools_pairwise (st : AggState) (e : DeltaEvent)
    (hp : List.Pairwise (fun a b : ToolEntry => a.idx < b.idx) st.tools) :
    List.Pairwise (fun a b : ToolEntry => a.idx < b.idx) (aggStep st e).tools := by
  cases e with
  | textDelta t => exact hp
  | reasoningDelta id t => exact hp
  | toolCallStart i id name =>
    exact pairwise_upsertTool (fun _ => rfl) rfl hp
  | toolCallArgDelta i fragment =>
    exact pairwise_upsertTool (fun _ => rfl) rfl hp
  | toolCallComplete i args =>
    exact pairwise_upsertTool (fun _ => rfl) rfl hp

theorem aggProcess_tools_pairwise (evs : List DeltaEvent) :
    List.Pairwise (fun a b : ToolEntry => a.idx < b.idx) (aggProcess evs).tools := by
  suffices h : ∀ st : AggState,
      List.Pairwise (fun a b : ToolEntry => a.idx < b.idx) st.tools →
      List.Pairwise (fun a b : ToolEntry => a.idx < b.idx) ((evs.foldl aggStep st).tools) by
    exact h AggState.init List.Pairwise.nil
  induction evs with
  | nil => intro st hst; exact hst
  | cons e evs ih =>
    intro st hst
    simp only [List.foldl_cons]
    exact ih (aggStep st e) (aggStep_tools_pairwise st e hst)

/-- Whether an assistant content entry is a tool call. -/
def isToolCallEntry : AssistantContent → Bool
  | .toolCall _ => true
  | _ => false

theorem mapM_sealed_all_toolcalls (parse : String → Option Json) :
    ∀ (es : List ToolEntry) (tp : List AssistantContent),
      es.mapM (sealedToolContent parse) = .ok tp → tp.all isToolCallEntry = true := by
  intro es
  induction es with
  | nil =>
    intro tp h
    cases h
    rfl
  | cons e es ih =>
    intro tp h
    rw [List.mapM_cons] at h
    cases hse : sealedToolContent parse e with
    | error err => rw [hse] at h; cases h
    | ok c =>
      rw [hse] at h
      cases hrest : es.mapM (sealedToolContent parse) with
      | error err => rw [hrest] at h; cases h
      | ok cs =>
        rw [hrest] at h
        cases h
        have hc : isToolCallEntry c = true := by
          unfold sealedToolContent at hse
          cases hp : parse e.buffer with
          | none => rw [hp] at hse; cases hse
          | some v => rw [hp] at hse; cases hse; rfl
        simp only [List.all_cons, hc, ih cs hrest, Bool.and_self]

/-- C1: for any delta-event interleaving closed by a FinalResponse, a
successful aggregation lists the accumulated text (when non-empty) first,
then the sealed tool calls taken from the index-sorted buffer entries, then
the accumulated reasoning (when non-empty) last, regardless of arrival
order. -/
theorem aggregator_content_order (parse : String → Option Json) (usage : Usage)
    (evs : List DeltaEvent) (resp : AggregatedResponse)
    (h : aggregate parse usage evs = .ok resp) :
    ∃ toolPart : List AssistantContent,
      resp.content.toList =
        (if deltaTextAcc evs = "" then [] else [AssistantContent.mkText (deltaTextAcc evs)])
        ++ toolPart
        ++ (if deltaReasoningAcc evs = "" then []
            else [AssistantContent.reasoning (Reasoning.new (deltaReasoningAcc evs))])
      ∧ (aggProcess evs).tools.mapM (sealedToolContent parse) = .ok toolPart
      ∧ toolPart.all isToolCallEntry = true
      ∧ List.Pairwise (fun a b : ToolEntry => a.idx < b.idx) (aggProcess evs).tools := by
  unfold aggregate aggFinalize at h
  cases hm : (aggProcess evs).tools.mapM (sealedToolContent parse) with
  | error err => rw [hm] at h; cases h
  | ok toolPart =>
    rw [hm] at h
    dsimp only at h
    cases hmany : OneOrMany.many
        ((if (aggProcess evs).text = "" then [] else [AssistantContent.mkText (aggProcess evs).text])
          ++ toolPart
          ++ (if (aggProcess evs).reasoning = "" then []
              else [AssistantContent.reasoning (Reasoning.new (aggProcess evs).reasoning)])) with
    | error err => rw [hmany] at h; cases h
    | ok content =>
      rw [hmany] at h
      cases h
      refine ⟨toolPart, ?_, rfl, mapM_sealed_all_toolcalls parse _ _ hm,
        aggProcess_tools_pairwise evs⟩
      rw [many_toList hmany, aggProcess_text, aggProcess_reasoning]

/-- A parse function for the C1 witness: every buffer parses to its own
string. -/
def c1Parse : String → Option Json := fun s => some (Json.str s)

/-- The interleaved event sequence of the C1 witness: reasoning first, the
higher tool index started before the lower one, text in the middle. -/
def c1Evs : List DeltaEvent :=
  [.reasoningDelta none "rr", .toolCallStart 1 "b" "g", .textDelta "tt",
   .toolCallStart 0 "a" "f", .toolCallComplete 0 "x", .toolCallComplete 1 "y"]

/-- The usage of the C1 witness. -/
def c1Usage : Usage := ⟨1, 2, 3, 0⟩

/-- The finalized response of the C1 witness: text, then the tool calls in
ascending index order, then reasoning. -/
def c1Resp : AggregatedResponse :=
  ⟨⟨AssistantContent.mkText "tt",
    [AssistantContent.toolCall (ToolCall.new "a" ⟨"f", Json.str "x"⟩),
     AssistantContent.toolCall (ToolCall.new "b" ⟨"g", Json.str "y"⟩),
     AssistantContent.reasoning (Reasoning.new "rr")]⟩, c1Usage⟩

/-- Closed instance of the C1 theorem at a concrete out-of-order run. -/
theorem aggregator_content_order_witness :
    aggregate c1Parse c1Usage c1Evs = .ok c1Resp
    ∧ ∃ toolPart : List AssistantContent,
        c1Resp.content.toList =
          (if deltaTextAcc c1Evs = "" then [] else [AssistantContent.mkText (deltaTextAcc c1Evs)])
          ++ toolPart
          ++ (if deltaReasoningAcc c1Evs = "" then []
              else [AssistantContent.reasoning (Reasoning.new (deltaReasoningAcc c1Evs))])
        ∧ (aggProcess c1Evs).tools.mapM (sealedToolContent c1Parse) = .ok toolPart
        ∧ toolPart.all isToolCallEntry = true
        ∧ List.Pairwise (fun a b : ToolEntry => a.idx < b.idx) (aggProcess c1Evs).tools :=
  ⟨rfl, aggregator_content_order c1Parse c1Usage c1Evs c1Resp rfl⟩

/-!
Claim C3: splitting a tool-call argument string into delta fragments is
equivalent to one completion event carrying the whole string.
-/

theorem foldl_argDelta (i : Nat) (idv namev : String) :
    ∀ (parts : List String) (b t r : String),
      (parts.map (DeltaEvent.toolCallArgDelta i)).foldl aggStep ⟨t, r, [⟨i, idv, namev, b⟩]⟩
        = ⟨t, r, [⟨i, idv, namev, parts.foldl (fun acc p => acc ++ p) b⟩]⟩ := by
  intro parts
  induction parts with
  | nil => intro b t r; rfl
  | cons p parts ih =>
    intro b t r
    simp only [List.map_cons, List.foldl_cons]
    rw [show aggStep ⟨t, r, [⟨i, idv, namev, b⟩]⟩ (DeltaEvent.toolCallArgDelta i p)
        = ⟨t, r, [⟨i, idv, namev, b ++ p⟩]⟩ by simp [aggStep, upsertTool]]
    exact ih (b ++ p) t r

/-- C3: for any way of splitting a tool-call argument string into fragments,
feeding a start event and the fragments as argument deltas finalizes to the
same parsed arguments as one completion event carrying the whole string. -/
theorem argdelta_split_equiv (parse : String → Option Json) (usage : Usage)
    (parts : List String) (s : String) (v : Json) (i : Nat) (idv namev : String)
    (hjoin : String.join parts = s) (hparse : parse s = some v) :
    ∃ ra rb,
      aggregate parse usage
        (DeltaEvent.toolCallStart i idv namev :: parts.map (DeltaEvent.toolCallArgDelta i))
        = .ok ra
      ∧ aggregate parse usage [DeltaEvent.toolCallComplete i s] = .ok rb
      ∧ toolArgsOf ra = [v] ∧ toolArgsOf rb = [v] := by
  have hstA : aggProcess
      (DeltaEvent.toolCallStart i idv namev :: parts.map (DeltaEvent.toolCallArgDelta i))
      = ⟨"", "", [⟨i, idv, namev, s⟩]⟩ := by
    unfold aggProcess
    simp only [List.foldl_cons]
    rw [show aggStep AggState.init (DeltaEvent.toolCallStart i idv namev)
        = ⟨"", "", [⟨i, idv, namev, ""⟩]⟩ from rfl]
    rw [foldl_argDelta i idv namev parts "" "" ""]
    rw [show parts.foldl (fun acc p => acc ++ p) "" = String.join parts from rfl, hjoin]
  have hstB : aggProcess [DeltaEvent.toolCallComplete i s] = ⟨"", "", [⟨i, "", "", s⟩]⟩ := rfl
  refine ⟨⟨⟨AssistantContent.toolCall (ToolCall.new idv ⟨namev, v⟩), []⟩, usage⟩,
    ⟨⟨AssistantContent.toolCall (ToolCall.new "" ⟨"", v⟩), []⟩, usage⟩, ?_, ?_, rfl, rfl⟩
  · unfold aggregate
    rw [hstA]
    unfold aggFinalize
    rw [show ([⟨i, idv, namev, s⟩] : List ToolEntry).mapM (sealedToolContent parse)
        = .ok [AssistantContent.toolCall (ToolCall.new idv ⟨namev, v⟩)] by
      rw [List.mapM_cons]
      unfold sealedToolContent
      simp [hparse]
      rfl]
    rfl
  · unfold aggregate
    rw [hstB]
    unfold aggFinalize
    rw [show ([⟨i, "", "", s⟩] : List ToolEntry).mapM (sealedToolContent parse)
        = .ok [AssistantContent.toolCall (ToolCall.new "" ⟨"", v⟩)] by
      rw [List.mapM_cons]
      unfold sealedToolContent
      simp [hparse]
      rfl]
    rfl

/-- Closed instance of the C3 theorem at a two-fragment split of "ab". -/
theorem argdelta_split_equiv_witness :
    String.join ["a", "b"] = "ab"
    ∧ (fun t => if t = "ab" then some (Json.str "ab") else none) "ab" = some (Json.str "ab")
    ∧ ∃ ra rb,
        aggregate (fun t => if t = "ab" then some (Json.str "ab") else none) ⟨0, 0, 0, 0⟩
          (DeltaEvent.toolCallStart 7 "id" "nm"
            :: (["a", "b"]).map (DeltaEvent.toolCallArgDelta 7)) = .ok ra
        ∧ aggregate (fun t => if t = "ab" then some (Json.str "ab") else none) ⟨0, 0, 0, 0⟩
            [DeltaEvent.toolCallComplete 7 "ab"] = .ok rb
        ∧ toolArgsOf ra = [Json.str "ab"] ∧ toolArgsOf rb = [Json.str "ab"] :=
  ⟨rfl, rfl,
    argdelta_split_equiv (fun t => if t = "ab" then some (Json.str "ab") else none)
      ⟨0, 0, 0, 0⟩ ["a", "b"] "ab" (Json.str "ab") 7 "id" "nm" rfl rfl⟩

/-!
Claim C4: exact termination under the turn limit.
-/

theorem executeTools_nonfatal (tools : ToolSet) (hnf : nonFatalTools tools) :
    ∀ cs : List ToolCall, executeTools tools cs = .ok (cs.map (resultOfCall tools)) := by
  intro cs
  induction cs with
  | nil => rfl
  | cons c cs ih =>
    unfold executeTools
    rw [show invokeCall tools c = .ok (resultOfCall tools c) by
      unfold invokeCall resultOfCall
      cases ht : tools c.function.name c.function.arguments with
      | ok out => rfl
      | err msg fatal =>
        cases fatal with
        | false => rfl
        | true =>
          have := hnf c.function.name c.function.arguments
          rw [ht] at this
          simp [ToolReply.isFatal] at this]
    rw [ih]
    rfl

theorem runAux_turn_limit (model : List Message → AssistantTurn) (tools : ToolSet)
    (hcalls : ∀ h, (toolCallsOf (model h)).isEmpty = false)
    (hnf : nonFatalTools tools) :
    ∀ (fuel : Nat) (h : List Message) (calls : Nat),
      runAux model tools fuel h calls
        = ⟨.turnLimitExceeded (model (historyAt model tools h fuel)), calls + fuel + 1⟩ := by
  intro fuel
  induction fuel with
  | zero =>
    intro h calls
    unfold runAux
    dsimp only
    rw [hcalls h]
    simp only [Bool.false_eq_true, if_false]
    rw [executeTools_nonfatal tools hnf]
    rfl
  | succ fuel ih =>
    intro h calls
    unfold runAux
    dsimp only
    rw [hcalls h]
    simp only [Bool.false_eq_true, if_false]
    rw [executeTools_nonfatal tools hnf]
    have hne : toolCallsOf (model h) ≠ [] := by
      intro hc
      have := hcalls h
      rw [hc] at this
      simp at this
    cases htc : toolCallsOf (model h) with
    | nil => exact absurd htc hne
    | cons c cs =>
      simp only [List.map_cons]
      show runAux model tools fuel
          (h ++ [assistantMsgOf (model h),
            .user ⟨UserContent.toolResult (resultOfCall tools c),
              (cs.map (resultOfCall tools)).map UserContent.toolResult⟩]) (calls + 1)
        = _
      rw [ih _ (calls + 1)]
      have hstep : orchStepHistory model tools h
          = h ++ [assistantMsgOf (model h),
            .user ⟨UserContent.toolResult (resultOfCall tools c),
              (cs.map (resultOfCall tools)).map UserContent.toolResult⟩] := by
        unfold orchStepHistory
        dsimp only
        rw [executeTools_nonfatal tools hnf, htc]
        rfl
      rw [show historyAt model tools h (fuel + 1)
          = historyAt model tools (orchStepHistory model tools h) fuel from rfl, hstep]
      congr 1
      omega

/-- C4: with a positive turn limit N, a model that requests a tool call on
every turn and tools that never fail fatally, the orchestrator terminates
after exactly N model calls in the TurnLimitExceeded state carrying the last
assistant response (the response of the N-th model call). -/
theorem turn_limit_exact (model : List Message → AssistantTurn) (tools : ToolSet)
    (N : Nat) (h0 : List Message) (hN : 0 < N)
    (hcalls : ∀ h, (toolCallsOf (model h)).isEmpty = false)
    (hnf : nonFatalTools tools) :
    orchRun model tools N h0
      = ⟨.turnLimitExceeded (model (historyAt model tools h0 (N - 1))), N⟩ := by
  unfold orchRun
  rw [runAux_turn_limit model tools hcalls hnf (N - 1) h0 0]
  congr 1
  omega

/-- The always-calling model of the C4 witness. -/
def c4Model : List Message → AssistantTurn :=
  fun _ => ⟨OneOrMany.one (.toolCall (ToolCall.new "i" ⟨"f", Json.null⟩))⟩

/-- The always-succeeding tools of the C4 witness. -/
def c4Tools : ToolSet := fun _ _ => .ok "r"

/-- Closed instance of the C4 theorem at limit 2. -/
theorem turn_limit_exact_witness :
    0 < 2
    ∧ (∀ h, (toolCallsOf (c4Model h)).isEmpty = false)
    ∧ nonFatalTools c4Tools
    ∧ orchRun c4Model c4Tools 2 []
      = ⟨.turnLimitExceeded (c4Model (historyAt c4Model c4Tools [] (2 - 1))), 2⟩ :=
  ⟨by decide, fun _ => rfl, fun _ _ => rfl,
    turn_limit_exact c4Model c4Tools 2 [] (by decide) (fun _ => rfl) (fun _ _ => rfl)⟩

/-!
Claim C5: recoverable versus fatal tool errors.
-/

/-- C5: a non-fatal tool error becomes the text content of that call's
ToolResult, the loop continues with that result visible to the next model
turn, and the run still reaches Done; the same error marked fatal makes the
run terminate in Failed after one model call. -/
theorem tool_error_recoverable_vs_fatal
    (model : List Message → AssistantTurn) (tools toolsF : ToolSet)
    (h0 : List Message) (c : ToolCall) (msg : String) (N : Nat)
    (hcalls : toolCallsOf (model h0) = [c])
    (hnfc : tools c.function.name c.function.arguments = .err msg false)
    (hfc : toolsF c.function.name c.function.arguments = .err msg true)
    (hdone : (toolCallsOf (model
        (h0 ++ [assistantMsgOf (model h0),
          .user (OneOrMany.one (UserContent.toolResult
            ⟨c.id, c.callId, OneOrMany.one (ToolResultContent.mkText msg)⟩))]))).isEmpty
        = true)
    (hN : 2 ≤ N) :
    executeTools tools [c]
      = .ok [⟨c.id, c.callId, OneOrMany.one (ToolResultContent.mkText msg)⟩]
    ∧ orchRun model tools N h0
      = ⟨.done (model (h0 ++ [assistantMsgOf (model h0),
          .user (OneOrMany.one (UserContent.toolResult
            ⟨c.id, c.callId, OneOrMany.one (ToolResultContent.mkText msg)⟩))])), 2⟩
    ∧ orchRun model toolsF N h0 = ⟨.failed (.fatalTool msg), 1⟩ := by
  have hexec : executeTools tools [c]
      = .ok [⟨c.id, c.callId, OneOrMany.one (ToolResultContent.mkText msg)⟩] := by
    unfold executeTools invokeCall
    rw [hnfc]
    rfl
  refine ⟨hexec, ?_, ?_⟩
  · unfold orchRun
    obtain ⟨K, hK⟩ : ∃ K, N - 1 = K + 1 := ⟨N - 2, by omega⟩
    rw [hK]
    unfold runAux
    dsimp only
    rw [hcalls]
    simp only [List.isEmpty_cons, Bool.false_eq_true, if_false]
    rw [hexec]
    show runAux model tools K
        (h0 ++ [assistantMsgOf (model h0),
          .user ⟨UserContent.toolResult
            ⟨c.id, c.callId, OneOrMany.one (ToolResultContent.mkText msg)⟩, []⟩]) 1
      = _
    unfold runAux
    dsimp only
    rw [show (OneOrMany.one (UserContent.toolResult
        (⟨c.id, c.callId, OneOrMany.one (ToolResultContent.mkText msg)⟩ : ToolResult)))
      = ⟨UserContent.toolResult
          ⟨c.id, c.callId, OneOrMany.one (ToolResultContent.mkText msg)⟩, []⟩ from rfl] at hdone
    rw [hdone]
    simp only [if_true]
    rfl
  · unfold orchRun runAux
    dsimp only
    rw [hcalls]
    simp only [List.isEmpty_cons, Bool.false_eq_true, if_false]
    rw [show executeTools toolsF [c] = .error (.fatalTool msg) by
      unfold executeTools invokeCall
      rw [hfc]]

/-- The single tool call of the C5 witness. -/
def c5Call : ToolCall := ToolCall.new "i" ⟨"f", Json.null⟩

/-- The model of the C5 witness: it requests one tool call on an empty
history and answers plainly afterwards. -/
def c5Model : List Message → AssistantTurn :=
  fun h =>
    if h.isEmpty then ⟨OneOrMany.one (.toolCall c5Call)⟩
    else ⟨OneOrMany.one (.text ⟨"done"⟩)⟩

/-- The failing but recoverable tools of the C5 witness. -/
def c5Tools : ToolSet := fun _ _ => .err "division by zero" false

/-- The fatally failing tools of the C5 witness. -/
def c5ToolsF : ToolSet := fun _ _ => .err "division by zero" true

/-- Closed instance of the C5 theorem at a one-call first turn. -/
theorem tool_error_recoverable_vs_fatal_witness :
    toolCallsOf (c5Model []) = [c5Call]
    ∧ c5Tools c5Call.function.name c5Call.function.arguments = .err "division by zero" false
    ∧ c5ToolsF c5Call.function.name c5Call.function.arguments = .err "division by zero" true
    ∧ (toolCallsOf (c5Model
        ([] ++ [assistantMsgOf (c5Model []),
          .user (OneOrMany.one (UserContent.toolResult
            ⟨c5Call.id, c5Call.callId,
              OneOrMany.one (ToolResultContent.mkText "division by zero")⟩))]))).isEmpty
        = true
    ∧ 2 ≤ 2
    ∧ (executeTools c5Tools [c5Call]
        = .ok [⟨c5Call.id, c5Call.callId,
            OneOrMany.one (ToolResultContent.mkText "division by zero")⟩]
      ∧ orchRun c5Model c5Tools 2 []
        = ⟨.done (c5Model ([] ++ [assistantMsgOf (c5Model []),
            .user (OneOrMany.one (UserContent.toolResult
              ⟨c5Call.id, c5Call.callId,
                OneOrMany.one (ToolResultContent.mkText "division by zero")⟩))])), 2⟩
      ∧ orchRun c5Model c5ToolsF 2 [] = ⟨.failed (.fatalTool "division by zero"), 1⟩) :=
  ⟨rfl, rfl, rfl, rfl, by decide,
    tool_error_recoverable_vs_fatal c5Model c5Tools c5ToolsF [] c5Call
      "division by zero" 2 rfl rfl rfl rfl (by decide)⟩

end Clankers
